import Mathlib

/-!
A shallow embedding of the risp S-expression reader and evaluator
(src/tokenize.rs, src/eval.rs, src/parse_error.rs), together with
theorems checking the specification's claims about it.

Bytes are modelled as natural numbers (the contents of a Rust byte
slice), machine integers (isize) as integers with the 64-bit range made
explicit where the source checks it, and fallible functions return
Except.  The recursive tokenizer and evaluator are embedded with an
explicit fuel parameter: a result of none means the computation did not
finish within the given fuel, so a function that diverges in the source
returns none for every fuel.
-/

namespace Risp

/-! ### Byte-level primitives (Rust u8 and slice operations) -/

/-- Rust u8::is_ascii_whitespace: space, tab, newline, form feed, carriage return. -/
def isAsciiWhitespace (c : Nat) : Bool :=
  c = 32 || c = 9 || c = 10 || c = 12 || c = 13

/-- Rust u8::is_ascii_digit. -/
def isAsciiDigit (c : Nat) : Bool :=
  48 ≤ c && c ≤ 57

/-- Rust slice trim_ascii_start: drop leading ASCII whitespace. -/
def trimAsciiStart : List Nat → List Nat
  | [] => []
  | c :: cs => if isAsciiWhitespace c then trimAsciiStart cs else c :: cs

/-- Rust slice trim_ascii_end: drop trailing ASCII whitespace. -/
def trimAsciiEnd (l : List Nat) : List Nat :=
  (trimAsciiStart l.reverse).reverse

/-- Rust slice trim_ascii: drop ASCII whitespace from both ends. -/
def trimAscii (l : List Nat) : List Nat :=
  trimAsciiEnd (trimAsciiStart l)

/-! ### parse_error.rs -/

/-- The ParseError enum of src/parse_error.rs.  The char payload of
ForbiddenCharInSymbol and the String payload of CannotParseNumber are
kept as the raw byte / byte sequence they were built from. -/
inductive ParseError where
  | CannotParseEmpty
  | MissingLeftParenthesis
  | MissingRightParenthesis
  | EmptyExpression
  | ForbiddenCharInSymbol (c : Nat)
  | NotAnSExpression
  | CannotParseNumber (text : List Nat)
  | MissingDoubleQuote
  | StringDidntEnd
deriving DecidableEq

/-! ### tokenize.rs: data model -/

/-- The AstNode enum of src/tokenize.rs.  Num carries an isize; its
value always lies in the 64-bit signed range because parseIsize is the
only producer inside the tokenizer. -/
inductive AstNode where
  | List (nodes : List AstNode)
  | Num (n : Int)
  | Sym (s : List Nat)
  | Str (s : List Nat)

/-- The AstToken enum of src/tokenize.rs: a fully consumed parse, or a
node plus the unconsumed rest of the buffer. -/
inductive AstToken where
  | Parsed (node : AstNode)
  | ParsedRest (node : AstNode) (rest : List Nat)

/-! ### tokenize.rs: atom parsing -/

/-- SYMBOL_FORBIDDEN_CHARS = b"()\"\'" as byte values. -/
def SYMBOL_FORBIDDEN_CHARS : List Nat := [40, 41, 34, 39]

def is_atom_forbidden_char (c : Nat) : Bool :=
  SYMBOL_FORBIDDEN_CHARS.contains c

/-- One step of the digit fold inside Rust isize parsing: reject a
non-digit byte, otherwise accumulate the decimal value. -/
def digitStep (acc : Option Nat) (c : Nat) : Option Nat :=
  acc.bind (fun a => if isAsciiDigit c then some (a * 10 + (c - 48)) else none)

/-- Decimal value of a byte sequence, none as soon as a byte is not an
ASCII digit. -/
def digitsVal (l : List Nat) : Option Nat :=
  l.foldl digitStep (some 0)

/-- Model of Rust str::parse::<isize> on a 64-bit target: an optional
sign, then a nonempty run of digits, whose value must fit in the signed
64-bit range; anything else is a parse failure (none). -/
def parseIsize (s : List Nat) : Option Int :=
  match s with
  | [] => none
  | c :: cs =>
    let signDigits : Bool × List Nat :=
      if c = 43 then (false, cs) else if c = 45 then (true, cs) else (false, s)
    match signDigits with
    | (neg, digits) =>
      if digits = [] then none
      else
        match digitsVal digits with
        | none => none
        | some m =>
          if neg then (if m ≤ 2 ^ 63 then some (-(m : Int)) else none)
          else (if m < 2 ^ 63 then some (m : Int) else none)

/-- AstNode::try_parse_atom of src/tokenize.rs.  The source unwraps the
first byte with expect and can only be reached with a nonempty buffer;
the empty case here returns an arbitrary error in its place. -/
def try_parse_atom (buffer : List Nat) : Except ParseError AstNode :=
  match buffer.find? is_atom_forbidden_char with
  | some bad_char => .error (.ForbiddenCharInSymbol bad_char)
  | none =>
    match buffer with
    | [] => .error (.CannotParseNumber [])
    | first_char :: _ =>
      let atom_is_number := isAsciiDigit first_char || first_char = 45
      if !atom_is_number then .ok (.Sym buffer)
      else
        match parseIsize buffer with
        | some number => .ok (.Num number)
        | none => .error (.CannotParseNumber buffer)

/-- get_cutting_index_for_symbol of src/tokenize.rs. -/
def get_cutting_index_for_symbol (trimmed_symbol_buffer : List Nat) : Nat :=
  let first_closing_paren_idx := trimmed_symbol_buffer.findIdx? (fun c => c = 41)
  let first_whitespace_idx := trimmed_symbol_buffer.findIdx? isAsciiWhitespace
  match first_closing_paren_idx, first_whitespace_idx with
  | some pindx, some windx => if windx = pindx + 1 then pindx else windx
  | none, some windx => windx
  | some pinx, none => pinx
  | none, none => trimmed_symbol_buffer.length

/-- tokenize_atom of src/tokenize.rs. -/
def tokenize_atom (buffer : List Nat) : Except ParseError AstToken :=
  let trimmed := trimAscii buffer
  let cutting_index := get_cutting_index_for_symbol trimmed
  let to_parse := trimmed.take cutting_index
  let rest := trimmed.drop cutting_index
  let trimmed_rest := trimAscii rest
  match try_parse_atom to_parse with
  | .error e => .error e
  | .ok node => if trimmed_rest = [] then .ok (.Parsed node) else .ok (.ParsedRest node rest)

/-! ### tokenize.rs: string parsing -/

/-- Rust slice split_once on the double-quote byte: the part strictly
before the first quote and the part strictly after it. -/
def splitOnceQuote : List Nat → Option (List Nat × List Nat)
  | [] => none
  | c :: cs =>
    if c = 34 then some ([], cs)
    else
      match splitOnceQuote cs with
      | none => none
      | some (before, after) => some (c :: before, after)

/-- tokenize_string of src/tokenize.rs; its argument is the buffer
after the opening quote.  In the branch where the byte after the closing
quote is not whitespace, trim_ascii_start leaves the rest unchanged, so
the empty case after it is unreachable (the source unwraps with expect);
it returns an arbitrary error here. -/
def tokenize_string (buffer : List Nat) : Except ParseError AstToken :=
  match splitOnceQuote buffer with
  | none => .error .MissingDoubleQuote
  | some (full_string, rest) =>
    let node := AstNode.Str full_string
    match rest with
    | [] => .ok (.Parsed node)
    | r0 :: _ =>
      if isAsciiWhitespace r0 then .ok (.ParsedRest node rest)
      else
        match trimAsciiStart rest with
        | [] => .error .StringDidntEnd
        | c :: cs => if c = 41 then .ok (.ParsedRest node (c :: cs)) else .error .StringDidntEnd

/-! ### tokenize.rs: the tokenizer

tokenize of src/tokenize.rs is recursive through the list-mode loop,
and that loop does not always make progress (its if-let silently drops
a fully-consumed element result and retries the same buffer), so the
embedding carries fuel.  The inl state is a call of tokenize on a
buffer; the inr state is one iteration of the list-mode loop with the
accumulated nodes and the current trimmed rest. -/

def tokenizeCore : Nat → List Nat ⊕ (List AstNode × List Nat) → Option (Except ParseError AstToken)
  | 0, _ => none
  | fuel + 1, Sum.inl buffer =>
    match trimAscii buffer with
    | [] => some (.error .CannotParseEmpty)
    | first_char :: rest =>
      if first_char = 41 then some (.error .MissingLeftParenthesis)
      else if first_char = 34 then some (tokenize_string rest)
      else if first_char ≠ 40 then some (tokenize_atom (first_char :: rest))
      else
        let trimmed_rest := trimAscii rest
        if trimmed_rest = [] then some (.error .MissingRightParenthesis)
        else tokenizeCore fuel (Sum.inr ([], trimmed_rest))
  | fuel + 1, Sum.inr (nodes, trimmed_rest) =>
    match trimmed_rest with
    | [] => some (.error .MissingRightParenthesis)
    | first_char :: after_first_char =>
      if first_char = 41 then
        if after_first_char = [] then some (.ok (.Parsed (.List nodes)))
        else some (.ok (.ParsedRest (.List nodes) (trimAscii after_first_char)))
      else
        match tokenizeCore fuel (Sum.inl trimmed_rest) with
        | none => none
        | some (.error e) => some (.error e)
        | some (.ok (.ParsedRest node rest)) =>
          tokenizeCore fuel (Sum.inr (nodes ++ [node], trimAscii rest))
        | some (.ok (.Parsed _)) => tokenizeCore fuel (Sum.inr (nodes, trimmed_rest))

/-- tokenize of src/tokenize.rs, with fuel. -/
def tokenize (fuel : Nat) (buffer : List Nat) : Option (Except ParseError AstToken) :=
  tokenizeCore fuel (Sum.inl buffer)

/-! ### tokenize.rs: Display rendering -/

/-- Decimal digit bytes of a natural number, most significant first;
the fuel argument bounds the number of digits and n + 1 always
suffices. -/
def natDecimalAux : Nat → Nat → List Nat
  | 0, _ => []
  | fuel + 1, n => if n < 10 then [48 + n] else natDecimalAux fuel (n / 10) ++ [48 + n % 10]

def natDecimal (n : Nat) : List Nat :=
  natDecimalAux (n + 1) n

/-- Decimal rendering of an isize, as Rust Display formats it. -/
def intDecimal (n : Int) : List Nat :=
  if n < 0 then 45 :: natDecimal n.natAbs else natDecimal n.natAbs

/-- The Display impl for AstNode of src/tokenize.rs, with fuel for the
recursion through lists: a list is its space-joined elements wrapped in
parentheses, a number its decimal digits, a symbol its raw bytes, a
string its raw bytes wrapped in double quotes.  The inr state renders a
list of nodes space-joined. -/
def displayCore : Nat → AstNode ⊕ List AstNode → Option (List Nat)
  | 0, _ => none
  | fuel + 1, Sum.inl node =>
    match node with
    | .Num n => some (intDecimal n)
    | .Sym s => some s
    | .Str s => some ([34] ++ s ++ [34])
    | .List nodes =>
      match displayCore fuel (Sum.inr nodes) with
      | none => none
      | some inner => some ([40] ++ inner ++ [41])
  | fuel + 1, Sum.inr nodes =>
    match nodes with
    | [] => some []
    | [node] => displayCore fuel (Sum.inl node)
    | node :: more =>
      match displayCore fuel (Sum.inl node), displayCore fuel (Sum.inr more) with
      | some d, some ds => some (d ++ [32] ++ ds)
      | _, _ => none

/-- Rendering of an AstNode, with fuel. -/
def display (fuel : Nat) (node : AstNode) : Option (List Nat) :=
  displayCore fuel (Sum.inl node)

/-! ### eval.rs -/

/-- Modelled from the spec: the runtime Value type is declared in code
missing from src (eval.rs imports it from tokenize.rs, whose copy under
src does not define it).  Per the spec it is Num (signed integer) or
Str (byte sequence); list-valued results are representable in the real
code but no built-in produces them and they are not modelled.  num is
the projection the + primitive maps over its arguments. -/
inductive Value where
  | Num (n : Int)
  | Str (s : List Nat)
deriving DecidableEq

def Value.num : Value → Option Int
  | .Num n => some n
  | .Str _ => none

/-- The EvalError enum of src/eval.rs.  UnableToEvalFunction keeps the
function name as its raw bytes (the source converts them to a String
through UTF-8). -/
inductive EvalError where
  | UnableToEvalFunction (name : List Nat)
  | CannotEvaluateEmptyList
  | CannotEvaluateNonSymbol
  | InvalidArguments (reason : String)
deriving DecidableEq

/-- collect::<Option<Vec<isize>>> over Value::num, as in lisp_plus. -/
def collectNums : List Value → Option (List Int)
  | [] => some []
  | v :: vs =>
    match Value.num v, collectNums vs with
    | some n, some ns => some (n :: ns)
    | _, _ => none

/-- Two's-complement wrap of an integer into the signed 64-bit (isize)
range, written with the explicit constants 2^63 and 2^64. -/
def wrapIsize (n : Int) : Int :=
  (n + 9223372036854775808) % 18446744073709551616 - 9223372036854775808

/-- lisp_plus of src/eval.rs.  The iterator sum over isize wraps on
overflow (release-build two's-complement semantics; a debug build
panics there instead, outside the model), so the result is the 64-bit
wrap of the mathematical sum. -/
def lisp_plus (arguments : List Value) : Except EvalError Value :=
  match collectNums arguments with
  | none => .error (.InvalidArguments "Non-number in sum operation")
  | some numbers => .ok (.Num (wrapIsize numbers.sum))

/-- GlobalNamespace of src/eval.rs: a map from function-name bytes to
native callables, modelled as an association list with
insert-or-overwrite registration. -/
structure GlobalNamespace where
  functions : List (List Nat × (List Value → Except EvalError Value))

def GlobalNamespace.empty : GlobalNamespace := ⟨[]⟩

/-- GlobalNamespace::defn: HashMap insert, overwriting any existing
entry for the key. -/
def GlobalNamespace.defn (ns : GlobalNamespace) (key : List Nat)
    (function : List Value → Except EvalError Value) : GlobalNamespace :=
  ⟨(key, function) :: ns.functions.filter (fun entry => !(entry.1 == key))⟩

/-- HashMap::get by exact key match. -/
def GlobalNamespace.lookup (ns : GlobalNamespace) (key : List Nat) :
    Option (List Value → Except EvalError Value) :=
  (ns.functions.find? (fun entry => entry.1 == key)).map Prod.snd

/-- GlobalNamespace::eval of src/eval.rs: look the key up, a miss is
UnableToEvalFunction, a hit calls the function on the arguments. -/
def GlobalNamespace.eval (ns : GlobalNamespace) (key : List Nat) (arguments : List Value) :
    Except EvalError Value :=
  match ns.lookup key with
  | none => .error (.UnableToEvalFunction key)
  | some f => f arguments

/-- The Default impl for GlobalNamespace: empty plus the + primitive. -/
def GlobalNamespace.default : GlobalNamespace :=
  GlobalNamespace.empty.defn [43] lisp_plus

/-- The argument collection inside eval of src/eval.rs:
map(eval).collect::<Result<Vec<Value>>> evaluates elements left to
right and stops at the first error.  evalStep is the evaluation of one
node (none when it runs out of fuel). -/
def evalList (evalStep : AstNode → Option (Except EvalError Value)) :
    List AstNode → Option (Except EvalError (List Value))
  | [] => some (.ok [])
  | node :: rest =>
    match evalStep node with
    | none => none
    | some (.error e) => some (.error e)
    | some (.ok v) =>
      match evalList evalStep rest with
      | none => none
      | some (.error e) => some (.error e)
      | some (.ok vs) => some (.ok (v :: vs))

/-- eval of src/eval.rs, with fuel for the recursion into list
elements: numbers and strings evaluate to themselves, a bare symbol is
an InvalidArguments error, a list must start with a symbol, its
remaining elements are evaluated eagerly left to right, and the symbol
is then resolved and invoked through the namespace. -/
def eval : Nat → AstNode → GlobalNamespace → Option (Except EvalError Value)
  | 0, _, _ => none
  | fuel + 1, node, ns =>
    match node with
    | .Num n => some (.ok (.Num n))
    | .Str s => some (.ok (.Str s))
    | .Sym _ => some (.error (.InvalidArguments "Cannot eval a plain symbol since vars are not supported yet"))
    | .List l =>
      match l with
      | .Sym symbol_name :: arguments =>
        match evalList (fun nd => eval fuel nd ns) arguments with
        | none => none
        | some (.error e) => some (.error e)
        | some (.ok evaluated_arguments) => some (ns.eval symbol_name evaluated_arguments)
      | _ => some (.error (.InvalidArguments "The evaluated value must exist and be a symbol"))

/-! ### Lemmas on trimming and suffixes -/

theorem trimAsciiStart_head? (l : List Nat) (c : Nat)
    (h : (trimAsciiStart l).head? = some c) : isAsciiWhitespace c = false := by
  induction l with
  | nil => simp [trimAsciiStart] at h
  | cons a as ih =>
    rw [trimAsciiStart] at h
    by_cases ha : isAsciiWhitespace a
    · rw [if_pos ha] at h; exact ih h
    · rw [if_neg ha] at h
      simp only [List.head?_cons, Option.some.injEq] at h
      subst h
      exact Bool.eq_false_iff.mpr ha

theorem trimAsciiStart_length_le (l : List Nat) : (trimAsciiStart l).length ≤ l.length := by
  induction l with
  | nil => simp [trimAsciiStart]
  | cons a as ih =>
    rw [trimAsciiStart]
    by_cases ha : isAsciiWhitespace a
    · rw [if_pos ha]; exact ih.trans (Nat.le_succ _)
    · rw [if_neg ha]

theorem trimAsciiStart_eq_self_iff (l : List Nat) :
    trimAsciiStart l = l ↔ ∀ c, l.head? = some c → isAsciiWhitespace c = false := by
  constructor
  · intro h c hc
    rw [← h] at hc
    exact trimAsciiStart_head? l c hc
  · intro h
    cases l with
    | nil => rfl
    | cons a as =>
      rw [trimAsciiStart, if_neg ?_]
      exact Bool.eq_false_iff.mp (h a rfl)

theorem trimAsciiEnd_eq_self_iff (l : List Nat) :
    trimAsciiEnd l = l ↔ ∀ c, l.getLast? = some c → isAsciiWhitespace c = false := by
  unfold trimAsciiEnd
  rw [show ((trimAsciiStart l.reverse).reverse = l ↔ trimAsciiStart l.reverse = l.reverse) from
    ⟨fun h => List.reverse_injective (h.trans (List.reverse_reverse l).symm),
     fun h => by rw [h, List.reverse_reverse]⟩]
  rw [trimAsciiStart_eq_self_iff]
  simp only [List.head?_reverse]

theorem noTrail_of_suffix {l l' : List Nat} (hs : l' <:+ l)
    (h : trimAsciiEnd l = l) : trimAsciiEnd l' = l' := by
  rw [trimAsciiEnd_eq_self_iff] at h ⊢
  intro c hc
  obtain ⟨pre, rfl⟩ := hs
  apply h
  cases l' with
  | nil => simp at hc
  | cons x xs =>
    rw [List.getLast?_append_of_ne_nil pre (by simp)]
    exact hc

theorem trimAsciiEnd_trimAsciiEnd (l : List Nat) :
    trimAsciiEnd (trimAsciiEnd l) = trimAsciiEnd l := by
  rw [trimAsciiEnd_eq_self_iff]
  intro c hc
  unfold trimAsciiEnd at hc
  rw [List.getLast?_reverse] at hc
  exact trimAsciiStart_head? _ _ hc

theorem trimAscii_noTrail (l : List Nat) : trimAsciiEnd (trimAscii l) = trimAscii l := by
  unfold trimAscii
  exact trimAsciiEnd_trimAsciiEnd _

theorem trimAsciiStart_suffix (l : List Nat) : trimAsciiStart l <:+ l := by
  induction l with
  | nil => exact List.suffix_refl _
  | cons a as ih =>
    rw [trimAsciiStart]
    by_cases ha : isAsciiWhitespace a
    · rw [if_pos ha]; exact ih.trans (List.suffix_cons a as)
    · rw [if_neg ha]

/-! ### Lemmas on the remainders produced by the tokenizer pieces -/

theorem tokenize_atom_rest (buffer : List Nat) (node : AstNode) (rem : List Nat)
    (h : tokenize_atom buffer = .ok (.ParsedRest node rem)) :
    rem = (trimAscii buffer).drop (get_cutting_index_for_symbol (trimAscii buffer)) := by
  simp only [tokenize_atom] at h
  split at h
  · exact absurd h (by simp)
  · split at h
    · exact absurd h (by simp)
    · simp only [Except.ok.injEq, AstToken.ParsedRest.injEq] at h
      exact h.2.symm

theorem splitOnceQuote_suffix :
    ∀ (l a b : List Nat), splitOnceQuote l = some (a, b) → b <:+ l := by
  intro l
  induction l with
  | nil => intro a b h; simp [splitOnceQuote] at h
  | cons c cs ih =>
    intro a b h
    rw [splitOnceQuote] at h
    by_cases hc : c = 34
    · rw [if_pos hc] at h
      simp only [Option.some.injEq, Prod.mk.injEq] at h
      rw [← h.2]
      exact List.suffix_cons c cs
    · rw [if_neg hc] at h
      cases hsp : splitOnceQuote cs with
      | none => rw [hsp] at h; simp at h
      | some p =>
        rw [hsp] at h
        simp only [Option.some.injEq, Prod.mk.injEq] at h
        have := ih p.1 p.2 (by rw [hsp])
        rw [← h.2]
        exact this.trans (List.suffix_cons c cs)

theorem tokenize_string_rest_suffix (buffer : List Nat) (node : AstNode) (rem : List Nat)
    (h : tokenize_string buffer = .ok (.ParsedRest node rem)) : rem <:+ buffer := by
  simp only [tokenize_string] at h
  split at h
  · exact absurd h (by simp)
  · rename_i full_string rest heq
    split at h
    · exact absurd h (by simp)
    · rename_i r0 rs
      split at h
      · simp only [Except.ok.injEq, AstToken.ParsedRest.injEq] at h
        rw [← h.2]
        exact splitOnceQuote_suffix buffer full_string (r0 :: rs) heq
      · split at h
        · exact absurd h (by simp)
        · rename_i c cs heq2
          split at h
          · simp only [Except.ok.injEq, AstToken.ParsedRest.injEq] at h
            rw [← h.2, ← heq2]
            exact (trimAsciiStart_suffix (r0 :: rs)).trans
              (splitOnceQuote_suffix buffer full_string (r0 :: rs) heq)
          · exact absurd h (by simp)

/-- Every ParsedRest remainder the tokenizer returns is free of trailing
ASCII whitespace (it is a suffix of a both-ends-trimmed buffer, or is
itself trimmed): the key invariant behind the corrected form of the
remainder claim. -/
theorem tokenizeCore_parsedRest_noTrail :
    ∀ (fuel : Nat) (arg : List Nat ⊕ List AstNode × List Nat) (node : AstNode) (rem : List Nat),
      tokenizeCore fuel arg = some (.ok (.ParsedRest node rem)) → trimAsciiEnd rem = rem := by
  intro fuel
  induction fuel with
  | zero => intro arg node rem h; simp [tokenizeCore] at h
  | succ fuel ih =>
    intro arg node rem h
    match arg with
    | Sum.inl buffer =>
      simp only [tokenizeCore] at h
      cases htrim : trimAscii buffer with
      | nil => rw [htrim] at h; simp at h
      | cons first rest =>
        rw [htrim] at h
        simp only [] at h
        by_cases h41 : first = 41
        · rw [if_pos h41] at h; simp at h
        · rw [if_neg h41] at h
          by_cases h34 : first = 34
          · rw [if_pos h34] at h
            simp only [Option.some.injEq] at h
            have hsuf : rem <:+ rest := tokenize_string_rest_suffix rest node rem h
            have : rest <:+ trimAscii buffer := htrim ▸ List.suffix_cons first rest
            exact noTrail_of_suffix (hsuf.trans this) (trimAscii_noTrail buffer)
          · rw [if_neg h34] at h
            by_cases h40 : first ≠ 40
            · rw [if_pos h40] at h
              simp only [Option.some.injEq] at h
              have hrest := tokenize_atom_rest (first :: rest) node rem h
              have hsuf : rem <:+ trimAscii (first :: rest) := hrest ▸ List.drop_suffix _ _
              exact noTrail_of_suffix hsuf (trimAscii_noTrail (first :: rest))
            · rw [if_neg h40] at h
              split at h
              · simp at h
              · exact ih _ node rem h
    | Sum.inr (nodes, trimmed_rest) =>
      simp only [tokenizeCore] at h
      cases trimmed_rest with
      | nil => simp at h
      | cons first after =>
        simp only [] at h
        by_cases h41 : first = 41
        · rw [if_pos h41] at h
          split at h
          · simp at h
          · simp only [Option.some.injEq, Except.ok.injEq, AstToken.ParsedRest.injEq] at h
            rw [← h.2]
            exact trimAscii_noTrail after
        · rw [if_neg h41] at h
          cases hrec : tokenizeCore fuel (Sum.inl (first :: after)) with
          | none => rw [hrec] at h; simp at h
          | some r =>
            rw [hrec] at h
            cases r with
            | error e => simp at h
            | ok tok =>
              cases tok with
              | Parsed n => exact ih _ node rem h
              | ParsedRest n r2 => exact ih _ node rem h

/-! ### Divergence of the list-mode loop on a fully consumed element -/

theorem tokenizeCore_sym_a (fuel : Nat) :
    tokenizeCore (fuel + 1) (Sum.inl [97]) = some (.ok (.Parsed (.Sym [97]))) := rfl

/-- The list-mode loop state after reading the open paren of b"(a": the
element parse consumes the whole buffer (a Parsed result), the source's
if-let drops it and retries the same buffer, so every amount of fuel is
exhausted. -/
theorem tokenizeCore_loop_a : ∀ fuel : Nat, tokenizeCore fuel (Sum.inr ([], [97])) = none := by
  intro fuel
  induction fuel with
  | zero => rfl
  | succ fuel ih =>
    have h1 : tokenizeCore (fuel + 1) (Sum.inr ([], [97])) =
        match tokenizeCore fuel (Sum.inl [97]) with
        | none => none
        | some (.error e) => some (.error e)
        | some (.ok (.ParsedRest node rest)) => tokenizeCore fuel (Sum.inr ([node], trimAscii rest))
        | some (.ok (.Parsed _)) => tokenizeCore fuel (Sum.inr ([], [97])) := rfl
    cases fuel with
    | zero => rw [h1]; rfl
    | succ f2 =>
      rw [h1, tokenizeCore_sym_a f2]
      exact ih

theorem tokenize_paren_a_none : ∀ fuel : Nat, tokenize fuel [40, 97] = none := by
  intro fuel
  cases fuel with
  | zero => rfl
  | succ f =>
    have h : tokenize (f + 1) [40, 97] = tokenizeCore f (Sum.inr ([], [97])) := rfl
    rw [h, tokenizeCore_loop_a]

/-! ### The claims -/

/-- C1: the claim that tokenize always terminates with a token or an
error is refuted by the code: on the buffer b"(a" the list-mode loop
never terminates (the embedding exhausts every amount of fuel), because
a fully consumed element inside an unclosed list is silently dropped
and the same buffer is retried forever. -/
theorem claim1_tokenize_not_total : ∀ fuel : Nat, tokenize fuel [40, 97] = none := by
  intro fuel
  exact tokenize_paren_a_none fuel

/-- C2: the spec says tokenize(b"(a") returns MissingRightParenthesis;
the code instead diverges: for every fuel the embedding of tokenize on
b"(a" runs out of fuel, and so does the loop state reached after
consuming the open paren, so no error is ever produced. -/
theorem claim2_unclosed_list_diverges : ∀ fuel : Nat,
    tokenize fuel [40, 97] = none ∧ tokenizeCore fuel (Sum.inr ([], [97])) = none := by
  intro fuel
  exact ⟨tokenize_paren_a_none fuel, tokenizeCore_loop_a fuel⟩

/-- C3 counterexample: on the buffer b"x)y z" (dispatched to atom mode)
the first close paren is at index 1 and the first whitespace at index
3, so the claimed cut, the earlier of the two, would be 1; the code
cuts at 3 instead (whitespace index, since it is not immediately after
the paren), so the atom text swallows the paren and tokenize rejects it
as a forbidden character. -/
theorem claim3_counterexample :
    get_cutting_index_for_symbol [120, 41, 121, 32, 122] = 3 ∧
    List.findIdx? (fun c => c = 41) [120, 41, 121, 32, 122] = some 1 ∧
    List.findIdx? isAsciiWhitespace [120, 41, 121, 32, 122] = some 3 ∧
    ¬(3 = 1 + 1) ∧ (3 : Nat) ≠ min 1 3 ∧
    tokenize 5 [120, 41, 121, 32, 122] = some (.error (.ForbiddenCharInSymbol 41)) :=
  ⟨rfl, rfl, rfl, by decide, by decide, rfl⟩

/-- C3 amended: when the buffer holds both a close paren and
whitespace, the cut is at the first whitespace, except that when the
first whitespace immediately follows the first close paren the cut is
at the paren (leaving it unconsumed); the first close paren being
earlier does not otherwise move the cut. -/
theorem claim3_amended (buf : List Nat) (p w : Nat)
    (hp : buf.findIdx? (fun c => c = 41) = some p)
    (hw : buf.findIdx? isAsciiWhitespace = some w) :
    get_cutting_index_for_symbol buf = if w = p + 1 then p else w := by
  unfold get_cutting_index_for_symbol
  rw [hp, hw]

theorem claim3_amended_witness :
    get_cutting_index_for_symbol [120, 41, 121, 32, 122] = if 3 = 1 + 1 then 1 else 3 :=
  claim3_amended [120, 41, 121, 32, 122] 1 3 rfl rfl

/-- C4 counterexample: tokenize(b"a b") returns ParsedRest with
remainder b" b", which carries leading ASCII whitespace, refuting the
claim that the remainder is trimmed on both sides. -/
theorem claim4_counterexample :
    tokenize 5 [97, 32, 98] = some (.ok (.ParsedRest (.Sym [97]) [32, 98])) ∧
    trimAsciiStart [32, 98] ≠ [32, 98] :=
  ⟨rfl, by decide⟩

/-- C4 amended: for every input and fuel, a ParsedRest remainder
carries no trailing ASCII whitespace (though it may carry leading
whitespace). -/
theorem claim4_amended : ∀ (fuel : Nat) (buffer rem : List Nat) (node : AstNode),
    tokenize fuel buffer = some (.ok (.ParsedRest node rem)) → trimAsciiEnd rem = rem := by
  intro fuel buffer rem node h
  exact tokenizeCore_parsedRest_noTrail fuel (Sum.inl buffer) node rem h

theorem claim4_amended_witness : trimAsciiEnd [32, 98] = [32, 98] :=
  claim4_amended 5 [97, 32, 98] [32, 98] (.Sym [97]) rfl

/-- C5: the claimed parse/render round trip fails on the code.  The
input b"(((a) ) z)" parses to the node List [List [List [Sym a]], Sym z],
which renders to b"(((a)) z)"; re-tokenizing that rendering does not
yield a node at all: the atom cut lands on the whitespace after the two
adjacent close parens, the atom text a)) swallows them, and the parse
fails with ForbiddenCharInSymbol, so display(parse(display(parse x)))
is an error while display(parse x) is not. -/
theorem claim5_roundtrip_fails :
    tokenize 20 [40, 40, 40, 97, 41, 32, 41, 32, 122, 41] =
      some (.ok (.Parsed (.List [.List [.List [.Sym [97]]], .Sym [122]]))) ∧
    display 20 (.List [.List [.List [.Sym [97]]], .Sym [122]]) =
      some [40, 40, 40, 97, 41, 41, 32, 122, 41] ∧
    tokenize 20 [40, 40, 40, 97, 41, 41, 32, 122, 41] =
      some (.error (.ForbiddenCharInSymbol 41)) :=
  ⟨rfl, rfl, rfl⟩

/-! ### Lemmas on argument evaluation -/

/-- Left-to-right short-circuiting of argument collection: when a
prefix evaluates cleanly and the next element errors, the whole
collection stops with that error, whatever follows. -/
theorem evalList_append_error (f : AstNode → Option (Except EvalError Value))
    (pre : List AstNode) (a : AstNode) (post : List AstNode) (vs : List Value) (e : EvalError)
    (h1 : evalList f pre = some (.ok vs)) (h2 : f a = some (.error e)) :
    evalList f (pre ++ a :: post) = some (.error e) := by
  induction pre generalizing vs with
  | nil => rw [List.nil_append, evalList, h2]
  | cons p ps ih =>
    rw [evalList] at h1
    cases hp : f p with
    | none => rw [hp] at h1; simp at h1
    | some r =>
      rw [hp] at h1
      cases r with
      | error e2 => simp at h1
      | ok v =>
        simp only [] at h1
        cases hps : evalList f ps with
        | none => rw [hps] at h1; simp at h1
        | some r2 =>
          rw [hps] at h1
          cases r2 with
          | error e2 => simp at h1
          | ok vs2 =>
            rw [List.cons_append, evalList, hp, ih vs2 hps]

/-- C6: evaluating a List node fails with InvalidArguments when the
list is empty or its head is not a Sym; with a Sym head the arguments
are evaluated eagerly left to right before the operator is invoked, and
the first argument error is returned, short-circuiting the rest. -/
theorem claim6_list_evaluation : ∀ (fuel : Nat) (ns : GlobalNamespace),
    (eval (fuel + 1) (.List []) ns =
      some (.error (.InvalidArguments "The evaluated value must exist and be a symbol"))) ∧
    (∀ hd tl, (∀ s, hd ≠ AstNode.Sym s) →
      eval (fuel + 1) (.List (hd :: tl)) ns =
        some (.error (.InvalidArguments "The evaluated value must exist and be a symbol"))) ∧
    (∀ (name : List Nat) (pre : List AstNode) (a : AstNode) (post : List AstNode)
        (vs : List Value) (e : EvalError),
      evalList (fun nd => eval fuel nd ns) pre = some (.ok vs) →
      eval fuel a ns = some (.error e) →
      eval (fuel + 1) (.List (.Sym name :: (pre ++ a :: post))) ns = some (.error e)) := by
  intro fuel ns
  refine ⟨rfl, ?_, ?_⟩
  · intro hd tl hnot
    cases hd with
    | List l => rfl
    | Num n => rfl
    | Sym s => exact absurd rfl (hnot s)
    | Str s => rfl
  · intro name pre a post vs e h1 h2
    rw [eval]
    rw [evalList_append_error (fun nd => eval fuel nd ns) pre a post vs e h1 h2]

theorem claim6_witness :
    eval 2 (.List [.Sym [43], .Num 1, .Sym [120], .Num 9]) GlobalNamespace.default =
      some (.error (.InvalidArguments "Cannot eval a plain symbol since vars are not supported yet")) ∧
    eval 2 (.List [.Num 7]) GlobalNamespace.default =
      some (.error (.InvalidArguments "The evaluated value must exist and be a symbol")) :=
  ⟨(claim6_list_evaluation 1 GlobalNamespace.default).2.2 [43] [.Num 1] (.Sym [120]) [.Num 9]
      [.Num 1] (.InvalidArguments "Cannot eval a plain symbol since vars are not supported yet")
      rfl rfl,
   (claim6_list_evaluation 1 GlobalNamespace.default).2.1 (.Num 7) [] (fun _ h => nomatch h)⟩

/-! ### Lemmas on the + primitive -/

theorem collectNums_map_num (ns : List Int) :
    collectNums (ns.map Value.Num) = some ns := by
  induction ns with
  | nil => rfl
  | cons n more ih => rw [List.map_cons, collectNums, ih]; rfl

theorem collectNums_none_of_mem (args : List Value) (v : Value)
    (hv : v ∈ args) (hnum : Value.num v = none) : collectNums args = none := by
  induction args with
  | nil => simp at hv
  | cons x xs ih =>
    rw [collectNums]
    rcases List.mem_cons.mp hv with heq | hmem
    · rw [← heq, hnum]
    · rw [ih hmem]
      cases Value.num x <;> rfl

theorem wrapIsize_eq_self (n : Int) (hlo : -(2 ^ 63) ≤ n) (hhi : n < 2 ^ 63) :
    wrapIsize n = n := by
  have hp : (2 : Int) ^ 63 = 9223372036854775808 := by norm_num
  rw [hp] at hlo hhi
  unfold wrapIsize
  rw [Int.emod_eq_of_lt (by omega) (by omega)]
  omega

/-- C7 counterexample: on the all-numeric argument list
[isize::MAX, 1] the + primitive does not return the mathematical sum:
the isize sum wraps around to isize::MIN (a debug build would panic
there instead of returning anything). -/
theorem claim7_counterexample :
    lisp_plus [.Num 9223372036854775807, .Num 1] = .ok (.Num (-9223372036854775808)) ∧
    (-9223372036854775808 : Int) ≠ 9223372036854775807 + 1 :=
  ⟨rfl, by decide⟩

/-- C7 amended: the + primitive sums its arguments with isize
arithmetic: an all-numeric argument list yields Num of the
two's-complement 64-bit wrap of the sum, which equals the mathematical
sum whenever that sum fits in the signed 64-bit range (zero arguments
giving 0, the empty-sum identity); any argument list containing a
non-numeric Value fails with InvalidArguments; and evaluating the
parse of b"(+ 1 2)" under the default namespace yields Num 3. -/
theorem claim7_amended :
    (∀ ns : List Int, lisp_plus (ns.map Value.Num) = .ok (.Num (wrapIsize ns.sum))) ∧
    (∀ ns : List Int, -(2 ^ 63) ≤ ns.sum → ns.sum < 2 ^ 63 →
      lisp_plus (ns.map Value.Num) = .ok (.Num ns.sum)) ∧
    lisp_plus [] = .ok (.Num 0) ∧
    (∀ args : List Value, (∃ v ∈ args, Value.num v = none) →
      lisp_plus args = .error (.InvalidArguments "Non-number in sum operation")) ∧
    (tokenize 10 [40, 43, 32, 49, 32, 50, 41] =
      some (.ok (.Parsed (.List [.Sym [43], .Num 1, .Num 2]))) ∧
     eval 10 (.List [.Sym [43], .Num 1, .Num 2]) GlobalNamespace.default =
      some (.ok (.Num 3))) := by
  have hsum : ∀ ns : List Int, lisp_plus (ns.map Value.Num) = .ok (.Num (wrapIsize ns.sum)) := by
    intro ns
    rw [lisp_plus, collectNums_map_num]
  refine ⟨hsum, ?_, rfl, ?_, rfl, rfl⟩
  · intro ns hlo hhi
    rw [hsum ns, wrapIsize_eq_self ns.sum hlo hhi]
  · intro args ⟨v, hv, hnum⟩
    rw [lisp_plus, collectNums_none_of_mem args v hv hnum]

theorem claim7_amended_witness :
    lisp_plus [Value.Num 1, Value.Num 2] = .ok (.Num 3) ∧
    lisp_plus [.Num 4, .Str [97], .Num 5] =
      .error (.InvalidArguments "Non-number in sum operation") :=
  ⟨claim7_amended.2.1 [1, 2] (by norm_num [List.sum_cons, List.sum_nil])
      (by norm_num [List.sum_cons, List.sum_nil]),
   claim7_amended.2.2.2.1 [.Num 4, .Str [97], .Num 5] ⟨.Str [97], by simp, rfl⟩⟩

/-- C8: a list form whose head symbol has no exact-match entry in the
namespace fails with UnableToEvalFunction carrying that name once all
its arguments evaluated cleanly; in particular evaluating the parse of
b"(foo 1)" under the default namespace fails with
UnableToEvalFunction("foo"). -/
theorem claim8_unknown_symbol :
    (∀ (fuel : Nat) (ns : GlobalNamespace) (name : List Nat) (args : List AstNode)
        (vs : List Value),
      ns.lookup name = none →
      evalList (fun nd => eval fuel nd ns) args = some (.ok vs) →
      eval (fuel + 1) (.List (.Sym name :: args)) ns =
        some (.error (.UnableToEvalFunction name))) ∧
    (tokenize 10 [40, 102, 111, 111, 32, 49, 41] =
      some (.ok (.Parsed (.List [.Sym [102, 111, 111], .Num 1]))) ∧
     eval 10 (.List [.Sym [102, 111, 111], .Num 1]) GlobalNamespace.default =
      some (.error (.UnableToEvalFunction [102, 111, 111]))) := by
  refine ⟨?_, rfl, rfl⟩
  intro fuel ns name args vs h1 h2
  rw [eval]
  rw [h2]
  show some (ns.eval name vs) = _
  rw [GlobalNamespace.eval, h1]

theorem claim8_witness :
    eval 2 (.List [.Sym [102, 111, 111], .Num 1]) GlobalNamespace.empty =
      some (.error (.UnableToEvalFunction [102, 111, 111])) :=
  claim8_unknown_symbol.1 1 GlobalNamespace.empty [102, 111, 111] [.Num 1] [.Num 1] rfl rfl

/-! ### Lemmas on string-mode scanning -/

theorem splitOnceQuote_eq_none (l : List Nat) (h : ∀ c ∈ l, c ≠ 34) :
    splitOnceQuote l = none := by
  induction l with
  | nil => rfl
  | cons c cs ih =>
    rw [splitOnceQuote, if_neg (h c (List.mem_cons_self c cs)),
      ih (fun x hx => h x (List.mem_cons_of_mem c hx))]

theorem splitOnceQuote_append (s after : List Nat) (h : ∀ c ∈ s, c ≠ 34) :
    splitOnceQuote (s ++ 34 :: after) = some (s, after) := by
  induction s with
  | nil => rw [List.nil_append, splitOnceQuote, if_pos rfl]
  | cons c cs ih =>
    rw [List.cons_append, splitOnceQuote, if_neg (h c (List.mem_cons_self c cs)),
      ih (fun x hx => h x (List.mem_cons_of_mem c hx))]

theorem tokenize_succ_string (fuel : Nat) (buffer srest : List Nat)
    (h : trimAscii buffer = 34 :: srest) :
    tokenize (fuel + 1) buffer = some (tokenize_string srest) := by
  unfold tokenize
  simp only [tokenizeCore, h]
  norm_num

/-- C9: in string mode, a buffer whose trimmed form opens with a double
quote fails with MissingDoubleQuote when no closing quote follows; the
bytes strictly between the quotes become a Str node unchanged in every
parse that has a closing quote: fully Parsed when the closing quote
ends the buffer, and a ParsedRest carrying the Str node when the
closing quote is followed by ASCII whitespace or by a close paren; and
a byte right after the closing quote that is neither end-of-buffer,
whitespace, nor a close paren fails with StringDidntEnd. -/
theorem claim9_string_mode : ∀ (fuel : Nat) (buffer srest : List Nat),
    trimAscii buffer = 34 :: srest →
    ((∀ c ∈ srest, c ≠ 34) →
      tokenize (fuel + 1) buffer = some (.error .MissingDoubleQuote)) ∧
    (∀ s : List Nat, srest = s ++ [34] → (∀ c ∈ s, c ≠ 34) →
      tokenize (fuel + 1) buffer = some (.ok (.Parsed (.Str s)))) ∧
    (∀ (s : List Nat) (a0 : Nat) (after : List Nat),
      srest = s ++ 34 :: a0 :: after → (∀ c ∈ s, c ≠ 34) →
      isAsciiWhitespace a0 = false → a0 ≠ 41 →
      tokenize (fuel + 1) buffer = some (.error .StringDidntEnd)) ∧
    (∀ (s : List Nat) (a0 : Nat) (after : List Nat),
      srest = s ++ 34 :: a0 :: after → (∀ c ∈ s, c ≠ 34) →
      isAsciiWhitespace a0 = true →
      tokenize (fuel + 1) buffer = some (.ok (.ParsedRest (.Str s) (a0 :: after)))) ∧
    (∀ (s after : List Nat),
      srest = s ++ 34 :: 41 :: after → (∀ c ∈ s, c ≠ 34) →
      tokenize (fuel + 1) buffer = some (.ok (.ParsedRest (.Str s) (41 :: after)))) := by
  intro fuel buffer srest h
  refine ⟨?_, ?_, ?_, ?_, ?_⟩
  · intro hq
    rw [tokenize_succ_string fuel buffer srest h, tokenize_string,
      splitOnceQuote_eq_none srest hq]
  · intro s hs hq
    subst hs
    rw [tokenize_succ_string fuel buffer _ h, tokenize_string,
      splitOnceQuote_append s [] hq]
  · intro s a0 after hs hq hws h41
    subst hs
    rw [tokenize_succ_string fuel buffer _ h, tokenize_string,
      splitOnceQuote_append s (a0 :: after) hq]
    simp only [hws, Bool.false_eq_true, if_false]
    rw [trimAsciiStart, hws]
    simp only [Bool.false_eq_true, if_false]
    rw [if_neg h41]
  · intro s a0 after hs hq hws
    subst hs
    rw [tokenize_succ_string fuel buffer _ h, tokenize_string,
      splitOnceQuote_append s (a0 :: after) hq]
    simp [hws]
  · intro s after hs hq
    subst hs
    rw [tokenize_succ_string fuel buffer _ h, tokenize_string,
      splitOnceQuote_append s (41 :: after) hq]
    rfl

theorem claim9_witness :
    tokenize 10 [34, 97, 98, 99] = some (.error .MissingDoubleQuote) ∧
    tokenize 10 [34, 97, 98, 99, 34] = some (.ok (.Parsed (.Str [97, 98, 99]))) ∧
    tokenize 10 [34, 97, 98, 99, 34, 100, 101, 102] = some (.error .StringDidntEnd) ∧
    tokenize 10 [34, 97, 98, 34, 32, 99] = some (.ok (.ParsedRest (.Str [97, 98]) [32, 99])) ∧
    tokenize 10 [34, 97, 98, 34, 41] = some (.ok (.ParsedRest (.Str [97, 98]) [41])) :=
  ⟨(claim9_string_mode 9 [34, 97, 98, 99] [97, 98, 99] rfl).1 (by decide),
   (claim9_string_mode 9 [34, 97, 98, 99, 34] [97, 98, 99, 34] rfl).2.1 [97, 98, 99]
      rfl (by decide),
   (claim9_string_mode 9 [34, 97, 98, 99, 34, 100, 101, 102]
      [97, 98, 99, 34, 100, 101, 102] rfl).2.2.1 [97, 98, 99] 100 [101, 102]
      rfl (by decide) (by decide) (by decide),
   (claim9_string_mode 9 [34, 97, 98, 34, 32, 99] [97, 98, 34, 32, 99] rfl).2.2.2.1
      [97, 98] 32 [99] rfl (by decide) (by decide),
   (claim9_string_mode 9 [34, 97, 98, 34, 41] [97, 98, 34, 41] rfl).2.2.2.2
      [97, 98] [] rfl (by decide)⟩

/-! ### Lemmas on numeric atom bounds -/

theorem foldl_digitStep_none (l : List Nat) : l.foldl digitStep none = none := by
  induction l with
  | nil => rfl
  | cons c cs ih => rw [List.foldl_cons]; exact ih

theorem foldl_digitStep_all_digits :
    ∀ (l : List Nat) (a m : Nat), l.foldl digitStep (some a) = some m →
      ∀ c ∈ l, isAsciiDigit c = true := by
  intro l
  induction l with
  | nil => intro a m _ c hc; simp at hc
  | cons x xs ih =>
    intro a m hm c hc
    rw [List.foldl_cons] at hm
    by_cases hx : isAsciiDigit x
    · have hstep : digitStep (some a) x = some (a * 10 + (x - 48)) := by
        simp [digitStep, hx]
      rcases List.mem_cons.mp hc with rfl | hmem
      · exact hx
      · exact ih _ m (by rw [← hstep]; exact hm) c hmem
    · exfalso
      have hstep : digitStep (some a) x = none := by
        simp [digitStep, hx]
      rw [hstep, foldl_digitStep_none] at hm
      exact Option.noConfusion hm

theorem digitsVal_all_digits (l : List Nat) (m : Nat) (h : digitsVal l = some m) :
    ∀ c ∈ l, isAsciiDigit c = true :=
  foldl_digitStep_all_digits l 0 m h

theorem digit_not_forbidden (c : Nat) (h : isAsciiDigit c = true) :
    is_atom_forbidden_char c = false := by
  simp only [isAsciiDigit, Bool.and_eq_true, decide_eq_true_eq] at h
  have h40 : c ≠ 40 := by omega
  have h41 : c ≠ 41 := by omega
  have h34 : c ≠ 34 := by omega
  have h39 : c ≠ 39 := by omega
  simp [is_atom_forbidden_char, SYMBOL_FORBIDDEN_CHARS, h40, h41, h34, h39]

theorem two_pow_63 : (2 : Nat) ^ 63 = 9223372036854775808 := by norm_num

theorem find?_forbidden_none_of_digits (l : List Nat)
    (h : ∀ c ∈ l, isAsciiDigit c = true) :
    l.find? is_atom_forbidden_char = none := by
  rw [List.find?_eq_none]
  intro x hx hfx
  rw [digit_not_forbidden x (h x hx)] at hfx
  exact Bool.noConfusion hfx

/-- C10: a numeric-looking atom whose decimal value does not fit in a
64-bit signed machine integer is rejected with CannotParseNumber
carrying the atom text, never turned into a Num node: for an unsigned
digit run the bound is 2^63 - 1, for a dash-prefixed run it is 2^63;
the concrete atom b"9223372036854775808" (that is 2^63) fails through
tokenize as well. -/
theorem claim10_isize_bounds :
    (∀ (ds : List Nat) (m : Nat), digitsVal ds = some m → ds ≠ [] → 2 ^ 63 ≤ m →
      try_parse_atom ds = .error (.CannotParseNumber ds)) ∧
    (∀ (ds : List Nat) (m : Nat), digitsVal ds = some m → ds ≠ [] → 2 ^ 63 < m →
      try_parse_atom (45 :: ds) = .error (.CannotParseNumber (45 :: ds))) ∧
    tokenize 5 [57, 50, 50, 51, 51, 55, 50, 48, 51, 54, 56, 53, 52, 55, 55, 53, 56, 48, 56] =
      some (.error (.CannotParseNumber
        [57, 50, 50, 51, 51, 55, 50, 48, 51, 54, 56, 53, 52, 55, 55, 53, 56, 48, 56])) := by
  refine ⟨?_, ?_, rfl⟩
  · intro ds m hdv hne hge
    have hdig := digitsVal_all_digits ds m hdv
    obtain ⟨c, cs, rfl⟩ : ∃ c cs, ds = c :: cs := by
      cases ds with
      | nil => exact absurd rfl hne
      | cons c cs => exact ⟨c, cs, rfl⟩
    have hc : isAsciiDigit c = true := hdig c (List.mem_cons_self c cs)
    have hcb : 48 ≤ c ∧ c ≤ 57 := by
      simpa [isAsciiDigit] using hc
    have hge2 : 9223372036854775808 ≤ m := two_pow_63 ▸ hge
    have hps : parseIsize (c :: cs) = none := by
      simp [parseIsize, show c ≠ 43 by omega, show c ≠ 45 by omega, hdv]
      omega
    simp only [try_parse_atom, find?_forbidden_none_of_digits _ hdig, hc, hps,
      Bool.true_or, Bool.not_true, Bool.false_eq_true, if_false]
  · intro ds m hdv hne hgt
    have hdig := digitsVal_all_digits ds m hdv
    have hgt2 : 9223372036854775808 < m := two_pow_63 ▸ hgt
    have hps : parseIsize (45 :: ds) = none := by
      simp [parseIsize, hne, hdv]
      omega
    have hfind : (45 :: ds).find? is_atom_forbidden_char = none := by
      rw [List.find?_eq_none]
      intro x hx
      rcases List.mem_cons.mp hx with rfl | hmem
      · intro hco; exact Bool.noConfusion hco
      · intro hco
        rw [digit_not_forbidden x (hdig x hmem)] at hco
        exact Bool.noConfusion hco
    simp only [try_parse_atom, hfind, hps]
    norm_num

theorem claim10_witness :
    try_parse_atom [57, 50, 50, 51, 51, 55, 50, 48, 51, 54, 56, 53, 52, 55, 55, 53, 56, 48, 56] =
      .error (.CannotParseNumber
        [57, 50, 50, 51, 51, 55, 50, 48, 51, 54, 56, 53, 52, 55, 55, 53, 56, 48, 56]) ∧
    try_parse_atom
        (45 :: [57, 50, 50, 51, 51, 55, 50, 48, 51, 54, 56, 53, 52, 55, 55, 53, 56, 48, 57]) =
      .error (.CannotParseNumber
        (45 :: [57, 50, 50, 51, 51, 55, 50, 48, 51, 54, 56, 53, 52, 55, 55, 53, 56, 48, 57])) :=
  ⟨claim10_isize_bounds.1
      [57, 50, 50, 51, 51, 55, 50, 48, 51, 54, 56, 53, 52, 55, 55, 53, 56, 48, 56]
      9223372036854775808 rfl (by simp) (by norm_num),
   claim10_isize_bounds.2.1
      [57, 50, 50, 51, 51, 55, 50, 48, 51, 54, 56, 53, 52, 55, 55, 53, 56, 48, 57]
      9223372036854775809 rfl (by simp) (by norm_num)⟩

end Risp
